import Mathlib

/-!
Verification of the Django Project Assistant scaffolding logic.

This file gives a shallow embedding of the core logic of the repository:

* `project_logic.py` — the command-runner wrapper, the `uv python list`
  parser, the installed-version probe with its memoization cache, the
  settings-file merge, the root-urls patch and the asset injection;
* `main.py` (`DjangoAssistantApp._project_worker_thread`) — the
  scaffolding pipeline, modelled as a step sequence producing an
  event trace and an `Except` result.

Python strings are modelled as `List Char` (or `String` where the value
is only compared/stored), the file system and the external processes as
explicit inputs/oracles.  Python `str.replace`, `str.strip`,
`str.splitlines` and the two concrete regular expressions of the source
are modelled by executable functions defined below.
-/

/-- Python substring test (`pat in hay`).  Scans positions left to right. -/
def containsList (hay pat : List Char) : Bool :=
  match hay with
  | [] => pat.isPrefixOf ([] : List Char)
  | c :: t => pat.isPrefixOf (c :: t) || containsList t pat

/-- Whitespace characters removed by Python `str.strip()`. -/
def isPySpace (c : Char) : Bool :=
  c == ' ' || c == '\t' || c == '\n' || c == '\r' || c == Char.ofNat 11 || c == Char.ofNat 12

/-- Python `str.strip()` on a character list. -/
def pyStrip (l : List Char) : List Char :=
  ((l.dropWhile isPySpace).reverse.dropWhile isPySpace).reverse

/-- Helper for `splitLines`: accumulates the current line (reversed). -/
def splitLinesGo : List Char → List Char → List (List Char)
  | [], acc => if acc = [] then [] else [acc.reverse]
  | '\r' :: '\n' :: rest, acc => acc.reverse :: splitLinesGo rest []
  | '\r' :: rest, acc => acc.reverse :: splitLinesGo rest []
  | '\n' :: rest, acc => acc.reverse :: splitLinesGo rest []
  | c :: rest, acc => splitLinesGo rest (c :: acc)

/-- Python `str.splitlines()` restricted to the `\n`, `\r\n` and `\r`
line boundaries (the exotic Unicode boundaries of CPython never occur
in the outputs the source feeds to it). -/
def splitLines (l : List Char) : List (List Char) :=
  splitLinesGo l []

/-- Fuel-indexed model of Python `str.replace(pat, rep)`: scan left to
right, replace every non-overlapping occurrence.  The fuel only serves
structural recursion; `pyReplace` supplies enough of it.  (The source
never calls `replace` with an empty pattern.) -/
def replaceFuel (pat rep : List Char) : Nat → List Char → List Char
  | _, [] => []
  | 0, c :: s => c :: s
  | n + 1, c :: s =>
    if pat.isPrefixOf (c :: s) then rep ++ replaceFuel pat rep n ((c :: s).drop pat.length)
    else c :: replaceFuel pat rep n s

/-- Python `hay.replace(pat, rep)` for a non-empty pattern. -/
def pyReplace (hay pat rep : List Char) : List Char :=
  replaceFuel pat rep hay.length hay

/-- Number of occurrences of `pat` in `s` (occurrence = position where
`pat` is a prefix of the corresponding suffix). -/
def countOcc (pat : List Char) : List Char → Nat
  | [] => 0
  | c :: s => (if pat.isPrefixOf (c :: s) then 1 else 0) + countOcc pat s

/-- First match of the regex `\d+\.\d+(?:\.\d+)?` when anchored at the
start of `l` (greedy, no backtracking is ever needed because a digit
run followed by the literal dot cannot shrink). -/
def matchSemverAt (l : List Char) : Option (List Char) :=
  let d1 := l.takeWhile Char.isDigit
  if d1 = [] then none
  else
    match l.drop d1.length with
    | '.' :: rest2 =>
      let d2 := rest2.takeWhile Char.isDigit
      if d2 = [] then none
      else
        match rest2.drop d2.length with
        | '.' :: rest3 =>
          let d3 := rest3.takeWhile Char.isDigit
          if d3 = [] then some (d1 ++ '.' :: d2) else some (d1 ++ '.' :: d2 ++ '.' :: d3)
        | _ => some (d1 ++ '.' :: d2)
    | _ => none

/-- Python `re.search(r'\d+\.\d+(?:\.\d+)?', line)`: leftmost match. -/
def firstSemver : List Char → Option (List Char)
  | [] => none
  | c :: rest =>
    match matchSemverAt (c :: rest) with
    | some m => some m
    | none => firstSemver rest

/-- Python `re.match(r'^(\d+)\.(\d+)', ver)`: the two digit groups of
the major.minor head of the string, if present. -/
def majorMinor (ver : List Char) : Option (List Char × List Char) :=
  let d1 := ver.takeWhile Char.isDigit
  if d1 = [] then none
  else
    match ver.drop d1.length with
    | '.' :: rest =>
      let d2 := rest.takeWhile Char.isDigit
      if d2 = [] then none else some (d1, d2)
    | _ => none

/-! ## Command runner (`project_logic.run_subprocess`) -/

/-- What the external world does when `subprocess.run` is invoked:
either the program runs to completion (with an exit code and optional
captured streams — `None` when capture is off), or it cannot be
launched at all and `subprocess.run` raises with some message. -/
inductive SubprocessOutcome where
  | completed (rc : Int) (stdout stderr : Option String)
  | launchFailure (msg : String)

/-- Model of `run_subprocess`: the `try` body turns a completed process
into `(returncode, (stdout or "") + (stderr or ""))`; the bare `except`
turns any launch failure into `(1, str(e))`.  Totality of this function
is the model of "never raises". -/
def run_subprocess : SubprocessOutcome → Int × String
  | SubprocessOutcome.completed rc o e => (rc, (o.getD "") ++ (e.getD ""))
  | SubprocessOutcome.launchFailure msg => (1, msg)

/-! ## Version listing (`project_logic.get_python_versions_via_uv_blocking`) -/

/-- Outcome of invoking `subprocess.run(["uv", "python", "list"], ...)`:
either the binary is absent (`FileNotFoundError`) or it runs and
produces some standard output. -/
inductive UvListOutcome where
  | toolNotFound
  | ran (stdout : List Char)

/-- The distinct error condition the function can raise. -/
inductive UvError where
  | fileNotFound
deriving DecidableEq

/-- Per-line token: strip the line, skip it when empty, else take the
first semantic-version-like match and fall back to the stripped line. -/
def tokenOfLine (l : List Char) : Option (List Char) :=
  let t := pyStrip l
  if t = [] then none else some ((firstSemver t).getD t)

/-- Tokens of a list of lines, in order, empty lines skipped. -/
def lineTokens (ls : List (List Char)) : List (List Char) :=
  ls.filterMap tokenOfLine

/-- The collection loop of the source: `versions` holds the result in
first-seen order; the Python `seen` set always has exactly the members
of `versions`, so it is modelled by membership in `versions`. -/
def collectVersions : List (List Char) → List (List Char) → List (List Char)
  | [], versions => versions
  | l :: ls, versions =>
    let t := pyStrip l
    if t = [] then collectVersions ls versions
    else
      let ver := (firstSemver t).getD t
      if ver ∈ versions then collectVersions ls versions
      else collectVersions ls (versions ++ [ver])

/-- Model of `get_python_versions_via_uv_blocking`: re-raises the
tool-not-found error, otherwise strips the captured stdout, returns `[]`
when it is empty, and else runs the per-line collection loop. -/
def get_python_versions_via_uv_blocking : UvListOutcome → Except UvError (List (List Char))
  | UvListOutcome.toolNotFound => Except.error UvError.fileNotFound
  | UvListOutcome.ran stdout =>
    let out := pyStrip stdout
    if out = [] then Except.ok []
    else Except.ok (collectVersions (splitLines out) [])

/-- Specification-side description of the dedup: keep the first
occurrence of every token, preserving order. -/
def firstSeenDedup : List (List Char) → List (List Char)
  | [] => []
  | v :: vs => v :: (firstSeenDedup vs).filter (fun w => !decide (w = v))

/-! ## Installed-version probe (`project_logic.is_python_version_installed`) -/

/-- Oracle for the external world consulted by the probe.  `which`
models `shutil.which`; `runPyLauncher key` and `runVersionProbe path`
model the respective `subprocess.run` calls and return the value of the
Python expression `proc.stdout or proc.stderr or ""` — `none` models
the call raising (the source swallows those exceptions). -/
structure ProbeEnv where
  isWindows : Bool
  which : List Char → Option (List Char)
  runPyLauncher : List Char → Option (List Char)
  runVersionProbe : List Char → Option (List Char)

/-- The Windows `py -X.Y --version` branch of the probe. -/
def winLauncherCheck (env : ProbeEnv) (key : List Char) : Bool :=
  if env.isWindows && (env.which ("py".data)).isSome then
    match env.runPyLauncher key with
    | some out => containsList out key
    | none => false
  else false

/-- The prioritized candidate binary names of the source:
`python{key}`, `python{key with dots removed}`, `python{major}`,
`python3`, `python`. -/
def candidateNames (d1 d2 : List Char) : List (List Char) :=
  let key := d1 ++ '.' :: d2
  [ "python".data ++ key,
    "python".data ++ key.filter (fun c => c != '.'),
    "python".data ++ d1,
    "python3".data,
    "python".data ]

/-- The candidate loop: resolve each name with `which`, skip unresolved
names and raising probes, succeed on the first probe whose output
contains the major.minor key. -/
def probeCandidates (env : ProbeEnv) (key : List Char) : List (List Char) → Bool
  | [] => false
  | exe :: rest =>
    match env.which exe with
    | none => probeCandidates env key rest
    | some path =>
      match env.runVersionProbe path with
      | none => probeCandidates env key rest
      | some out => if containsList out key then true else probeCandidates env key rest

/-- Model of `is_python_version_installed`, with the module-level
`_installed_cache` dict passed in and out explicitly (an association
list keyed by the major.minor string). -/
def is_python_version_installed (env : ProbeEnv) (cache : List (List Char × Bool))
    (ver : List Char) : Bool × List (List Char × Bool) :=
  match majorMinor ver with
  | none => (false, cache)
  | some (d1, d2) =>
    let key := d1 ++ '.' :: d2
    match cache.lookup key with
    | some b => (b, cache)
    | none =>
      let installed := winLauncherCheck env key || probeCandidates env key (candidateNames d1 d2)
      (installed, (key, installed) :: cache)

/-! ## Settings merge (`project_logic.patch_settings`)

The AST extraction and the textual rewrite are abstracted to their
parsed content: the function below computes exactly the
`settings_dict["INSTALLED_APPS"]` and `settings_dict["MIDDLEWARE"]`
lists the source builds from the parsed lists and then writes back. -/

/-- A selected package configuration record; `apps` and `middleware`
model the string-or-list fields already normalised to lists (the source
wraps a bare string into a singleton list). -/
structure DjangoPackage where
  apps : List String
  middleware : List String
  other_settings : String

/-- The marker the source looks for inside a middleware entry. -/
def corsMarker : String := "CorsMiddleware"

/-- Python substring test on `String`. -/
def containsStr (hay pat : String) : Bool := containsList hay.data pat.data

/-- One step of the applications loop: `if app and app not in list:
list.append(app)`. -/
def addApp (l : List String) (app : String) : List String :=
  if app ≠ "" ∧ app ∉ l then l ++ [app] else l

/-- One step of the middleware loop: skip empty or already-present
entries; insert entries containing the CORS marker at the front,
append all others. -/
def addMw (l : List String) (mw : String) : List String :=
  if mw ≠ "" ∧ mw ∉ l then
    (if containsStr mw corsMarker then mw :: l else l ++ [mw])
  else l

/-- Processing of one package: its apps into the first list, its
middleware into the second. -/
def applyPackage (s : List String × List String) (pkg : DjangoPackage) :
    List String × List String :=
  (pkg.apps.foldl addApp s.1, pkg.middleware.foldl addMw s.2)

/-- The `other_settings` trailer lines collected by the loop (empty
blocks are falsy in Python and skipped). -/
def otherSettingsLines (pkgs : List DjangoPackage) : List String :=
  pkgs.filterMap (fun p => if p.other_settings = "" then none else some p.other_settings)

/-- The list computation of `patch_settings`: fold all selected packages
over the parsed `INSTALLED_APPS`/`MIDDLEWARE` lists, then
unconditionally append `"core"`, and `"accounts"` when the
custom-user-model flag is set. -/
def patch_settings_lists (apps0 mw0 : List String) (pkgs : List DjangoPackage)
    (customUser : Bool) : List String × List String :=
  let s := pkgs.foldl applyPackage (apps0, mw0)
  (s.1 ++ ["core"] ++ (if customUser then ["accounts"] else []), s.2)

/-- All middleware entries contributed by the packages, in processing
order. -/
def flatMiddleware (pkgs : List DjangoPackage) : List String :=
  (pkgs.map DjangoPackage.middleware).flatten

/-- All app entries contributed by the packages, in processing order. -/
def flatApps (pkgs : List DjangoPackage) : List String :=
  (pkgs.map DjangoPackage.apps).flatten

/-! ## Root-urls patch (`project_logic.patch_project_urls`) -/

/-- The apostrophe character, used to build the literals of the source. -/
def apos : Char := Char.ofNat 39

/-- The idempotence marker `include('core.urls')`. -/
def includeMarker : List Char :=
  "include(".data ++ [apos] ++ "core.urls".data ++ [apos] ++ ")".data

/-- The import line that gets extended. -/
def urlImportOld : List Char := "from django.urls import path".data

/-- Its replacement. -/
def urlImportNew : List Char := "from django.urls import path, include".data

/-- The inserted route line `\n    path('', include('core.urls')),`. -/
def insertedRoute : List Char :=
  "\n    path(".data ++ [apos, apos] ++ ", ".data ++ includeMarker ++ "),".data

/-- Match of the regex `urlpatterns\s*=\s*\[` anchored at the start of
`l`: the length of the match (up to and including the bracket), which
is also where `txt.find('[', m.start())` points. -/
def matchUrlpatternsAt (l : List Char) : Option Nat :=
  if ("urlpatterns".data).isPrefixOf l then
    let r1 := l.drop 11
    let sp1 := r1.takeWhile isPySpace
    match r1.drop sp1.length with
    | '=' :: r2 =>
      let sp2 := r2.takeWhile isPySpace
      match r2.drop sp2.length with
      | '[' :: _ => some (11 + sp1.length + 1 + sp2.length + 1)
      | _ => none
    | _ => none
  else none

/-- Leftmost match of `urlpatterns\s*=\s*\[`, returned as the split of
the text just after the opening bracket. -/
def findUrlpatterns : List Char → Option (List Char × List Char)
  | [] => none
  | c :: rest =>
    match matchUrlpatternsAt (c :: rest) with
    | some n => some ((c :: rest).take n, (c :: rest).drop n)
    | none => (findUrlpatterns rest).map (fun p => (c :: p.1, p.2))

/-- Model of `patch_project_urls`.  The file is `none` when
`urls_path.exists()` is false; the result pairs the returned Bool with
the resulting file state (the file is only written on the insertion
path). -/
def patch_project_urls (file : Option (List Char)) : Bool × Option (List Char) :=
  match file with
  | none => (false, none)
  | some txt =>
    if containsList txt includeMarker then (true, some txt)
    else
      let txt1 := pyReplace txt urlImportOld urlImportNew
      match findUrlpatterns txt1 with
      | some p => (true, some (p.1 ++ insertedRoute ++ p.2))
      | none => (false, some txt)

/-! ## Asset injection (`project_logic.inject_external_libraries`) -/

/-- The dash character, used to spell the HTML comment markers. -/
def dashChar : Char := Char.ofNat 45

/-- The head-links placeholder of the base template. -/
def headMarker : List Char :=
  "<!".data ++ [dashChar, dashChar] ++ " DJANGO_ASSISTANT_HEAD_LINKS ".data ++
    [dashChar, dashChar] ++ ">".data

/-- The body-scripts placeholder of the base template. -/
def bodyMarker : List Char :=
  "<!".data ++ [dashChar, dashChar] ++ " DJANGO_ASSISTANT_BODY_SCRIPTS ".data ++
    [dashChar, dashChar] ++ ">".data

/-- A selected external-asset descriptor. -/
structure ExternalLibrary where
  head_links : List (List Char)
  body_scripts : List (List Char)

/-- A generated stylesheet link line. -/
def headLinkLine (u : List Char) : List Char :=
  "  <link rel=\"stylesheet\" href=\"".data ++ u ++ "\">".data

/-- A generated script line. -/
def bodyScriptLine (u : List Char) : List Char :=
  "  <script src=\"".data ++ u ++ "\"></script>".data

/-- The joined head-injection block (`"\n".join(head_injection)`). -/
def headBlock (libs : List ExternalLibrary) : List Char :=
  List.intercalate ("\n".data) ((libs.map (fun l => l.head_links.map headLinkLine)).flatten)

/-- The joined body-injection block. -/
def bodyBlock (libs : List ExternalLibrary) : List Char :=
  List.intercalate ("\n".data) ((libs.map (fun l => l.body_scripts.map bodyScriptLine)).flatten)

/-- The content transformation of `inject_external_libraries`: replace
the head marker, then the body marker, each by `str.replace`. -/
def inject_external_libraries (content : List Char) (libs : List ExternalLibrary) :
    List Char :=
  pyReplace (pyReplace content headMarker (headBlock libs)) bodyMarker (bodyBlock libs)

/-- File-level wrapper: the function returns silently when the base
template does not exist. -/
def inject_external_libraries_file (file : Option (List Char))
    (libs : List ExternalLibrary) : Option (List Char) :=
  match file with
  | none => none
  | some c => some (inject_external_libraries c libs)

/-! ## The scaffolding pipeline (`DjangoAssistantApp._project_worker_thread`) -/

/-- Externally observable side effects of the pipeline: directory
creations and external command invocations (pure file writes/reads are
not directory creations and not external commands and carry no event). -/
inductive PipelineEvent where
  | mkdirProject
  | mkdirVenvParent
  | cmdUvVenv
  | cmdPipInstall
  | cmdStartProject
  | cmdStartAppCore
  | cmdStartAppAccounts
  | mkdirAccounts
  | mkdirCoreTemplates
  | mkdirAccountsTemplates
  | cmdMakeMigrations
  | cmdMigrate
  | cmdCreateSuperuser
deriving DecidableEq

/-- The fatal conditions raised by the worker. -/
inductive PipelineError where
  | projectDirNonEmpty
  | venvDirNonEmpty
  | uvNotFound
  | venvCreateFailed
  | venvPythonNotFound
  | pipInstallFailed
  | startprojectFailed
  | templateCollectionNotFound
deriving DecidableEq

/-- The state of the outside world the worker observes. -/
structure WorkerEnv where
  projNonempty : Bool
  venvNonempty : Bool
  uvAvailable : Bool
  venvCreateOk : Bool
  venvPythonFound : Bool
  pipInstallOk : Bool
  startprojectOk : Bool
  templateCollectionExists : Bool
  srcCoreExists : Bool
  srcAccountsExists : Bool

/-- The request fields that steer the control flow of the worker. -/
structure WorkerData where
  custom_user_model : Bool
  create_superuser : Bool

/-- Model of `_project_worker_thread`: validation, uv check, directory
creation, and the fixed command sequence, with the trace of events
emitted so far attached to every outcome.  `startapp core`,
`makemigrations`, `migrate` and `createsuperuser` exit codes are not
checked by the source, so they produce events but no failures. -/
def projectWorker (env : WorkerEnv) (d : WorkerData) :
    Except PipelineError Unit × List PipelineEvent :=
  if env.projNonempty then (Except.error PipelineError.projectDirNonEmpty, [])
  else if env.venvNonempty then (Except.error PipelineError.venvDirNonEmpty, [])
  else if !env.uvAvailable then (Except.error PipelineError.uvNotFound, [])
  else
    let t := [PipelineEvent.mkdirProject, PipelineEvent.mkdirVenvParent, PipelineEvent.cmdUvVenv]
    if !env.venvCreateOk then (Except.error PipelineError.venvCreateFailed, t)
    else if !env.venvPythonFound then (Except.error PipelineError.venvPythonNotFound, t)
    else
      let t := t ++ [PipelineEvent.cmdPipInstall]
      if !env.pipInstallOk then (Except.error PipelineError.pipInstallFailed, t)
      else
        let t := t ++ [PipelineEvent.cmdStartProject]
        if !env.startprojectOk then (Except.error PipelineError.startprojectFailed, t)
        else
          let t := t ++ [PipelineEvent.cmdStartAppCore]
          let t := t ++ (if d.custom_user_model then
            [PipelineEvent.cmdStartAppAccounts, PipelineEvent.mkdirAccounts] else [])
          if !env.templateCollectionExists then
            (Except.error PipelineError.templateCollectionNotFound, t)
          else
            let t := t ++ (if env.srcCoreExists then [PipelineEvent.mkdirCoreTemplates] else [])
            let t := t ++ (if d.custom_user_model && env.srcAccountsExists then
              [PipelineEvent.mkdirAccountsTemplates] else [])
            let t := t ++ [PipelineEvent.cmdMakeMigrations, PipelineEvent.cmdMigrate]
            let t := t ++ (if d.create_superuser then [PipelineEvent.cmdCreateSuperuser] else [])
            (Except.ok (), t)

/-! ## Generic lemmas about the string model -/

theorem isPrefixOf_append_self (p b : List Char) : p.isPrefixOf (p ++ b) = true := by
  induction p with
  | nil => simp [List.isPrefixOf]
  | cons a t ih => simp [List.isPrefixOf, ih]

theorem isPrefixOf_extend (p s z : List Char) (h : p.isPrefixOf s = true) :
    p.isPrefixOf (s ++ z) = true := by
  induction p generalizing s with
  | nil => simp [List.isPrefixOf]
  | cons a t ih =>
    cases s with
    | nil => simp [List.isPrefixOf] at h
    | cons b s' =>
      simp only [List.isPrefixOf, Bool.and_eq_true] at h ⊢
      exact ⟨h.1, ih s' h.2⟩

theorem containsList_nil_pat (z : List Char) : containsList z [] = true := by
  cases z <;> simp [containsList, List.isPrefixOf]

theorem containsList_append_right (x s pat : List Char) (h : containsList s pat = true) :
    containsList (x ++ s) pat = true := by
  induction x with
  | nil => simpa using h
  | cons c t ih => simp [containsList, ih]

theorem containsList_append_left (s z pat : List Char) (h : containsList s pat = true) :
    containsList (s ++ z) pat = true := by
  induction s with
  | nil =>
    have hp : pat = [] := by
      cases pat with
      | nil => rfl
      | cons a t => simp [containsList, List.isPrefixOf] at h
    subst hp
    exact containsList_nil_pat z
  | cons c t ih =>
    rw [show containsList (c :: t) pat = (pat.isPrefixOf (c :: t) || containsList t pat)
      from rfl, Bool.or_eq_true] at h
    rw [List.cons_append,
      show containsList (c :: (t ++ z)) pat
        = (pat.isPrefixOf (c :: (t ++ z)) || containsList (t ++ z) pat) from rfl,
      Bool.or_eq_true]
    rcases h with h | h
    · exact Or.inl (by rw [← List.cons_append]; exact isPrefixOf_extend _ _ z h)
    · exact Or.inr (ih h)

/-! ## C5: the command runner never raises -/

/-- C5.  The command runner never raises for any exit status of the
external program: for every completed invocation it returns the pair of
the exit code and the concatenated captured standard output and
standard error, and exactly in the case where the external program
cannot be launched it returns exit code 1 with the exception text as
the output message.  (`run_subprocess` is a total function over all
subprocess outcomes, which is the model of "never raises".) -/
theorem run_subprocess_contract (rc : Int) (o e : Option String) (msg : String) :
    run_subprocess (SubprocessOutcome.completed rc o e) = (rc, (o.getD "") ++ (e.getD "")) ∧
    run_subprocess (SubprocessOutcome.launchFailure msg) = (1, msg) :=
  ⟨rfl, rfl⟩

/-! ## C7: tool-not-found is distinct from an empty version list -/

/-- C7.  When the `uv` binary is absent, `get_python_versions_via_uv_blocking`
fails with its distinct file-not-found error; when the tool runs but
prints nothing (empty or all-whitespace stdout), the result is the
empty list wrapped in success; the two outcomes are distinguishable. -/
theorem get_python_versions_tool_absent (out : List Char) (h : pyStrip out = []) :
    get_python_versions_via_uv_blocking UvListOutcome.toolNotFound
      = Except.error UvError.fileNotFound ∧
    get_python_versions_via_uv_blocking (UvListOutcome.ran out) = Except.ok [] ∧
    (Except.error UvError.fileNotFound : Except UvError (List (List Char))) ≠ Except.ok [] := by
  refine ⟨rfl, ?_, by simp⟩
  simp [get_python_versions_via_uv_blocking, h]

theorem get_python_versions_tool_absent_witness :
    pyStrip (" \n ".data) = [] ∧
    (get_python_versions_via_uv_blocking UvListOutcome.toolNotFound
        = Except.error UvError.fileNotFound ∧
      get_python_versions_via_uv_blocking (UvListOutcome.ran (" \n ".data)) = Except.ok [] ∧
      (Except.error UvError.fileNotFound : Except UvError (List (List Char))) ≠ Except.ok []) :=
  ⟨by decide, get_python_versions_tool_absent (" \n ".data) (by decide)⟩

/-! ## C10: version strings without a major.minor head -/

/-- C10.  For every version string with no digits-dot-digits head, the
probe returns `false` immediately: the result and the returned cache do
not depend on the probe environment (no binary is probed) nor on the
cache contents (the cache is neither consulted nor updated: it is
returned exactly as passed, whatever it holds). -/
theorem is_python_version_installed_no_key (env : ProbeEnv)
    (cache : List (List Char × Bool)) (ver : List Char) (h : majorMinor ver = none) :
    is_python_version_installed env cache ver = (false, cache) := by
  unfold is_python_version_installed
  rw [h]

/-- Fully unresolving probe environment: no launcher, no binaries. -/
def emptyProbeEnv : ProbeEnv :=
  { isWindows := false
    which := fun _ => none
    runPyLauncher := fun _ => none
    runVersionProbe := fun _ => none }

theorem is_python_version_installed_no_key_witness :
    majorMinor ("pypy".data) = none ∧
    is_python_version_installed emptyProbeEnv [("3.11".data, true)] ("pypy".data)
      = (false, [("3.11".data, true)]) :=
  ⟨by decide,
    is_python_version_installed_no_key emptyProbeEnv [("3.11".data, true)] ("pypy".data)
      (by decide)⟩

/-! ## C9: root-urls patch, marker idempotence and soft failure -/

/-- C9.  `patch_project_urls` soft-fails on absence (returns `false`
without raising, leaving no file) and is idempotent through its marker
check: when the marker substring is already present it is a no-op that
returns `true`, and any successful run leaves a file on which the
operation is that exact no-op. -/
theorem patch_project_urls_marker_soft_fail (txt t t2 : List Char)
    (hmark : containsList txt includeMarker = true)
    (hp : patch_project_urls (some t) = (true, some t2)) :
    patch_project_urls none = (false, none) ∧
    patch_project_urls (some txt) = (true, some txt) ∧
    patch_project_urls (some t2) = (true, some t2) := by
  refine ⟨rfl, by simp [patch_project_urls, hmark], ?_⟩
  have hmark2 : containsList t2 includeMarker = true := by
    by_cases hm : containsList t includeMarker = true
    · have : t2 = t := by
        simp [patch_project_urls, hm] at hp
        exact hp.symm
      rw [this]; exact hm
    · rw [Bool.not_eq_true] at hm
      cases hf : findUrlpatterns (pyReplace t urlImportOld urlImportNew) with
      | none => simp [patch_project_urls, hm, hf] at hp
      | some p =>
        simp [patch_project_urls, hm, hf] at hp
        have hins : containsList insertedRoute includeMarker = true := by decide
        rw [← hp]
        exact containsList_append_right _ _ _
          (containsList_append_left _ _ _ hins)
  simp [patch_project_urls, hmark2]

theorem patch_project_urls_marker_soft_fail_witness :
    containsList includeMarker includeMarker = true ∧
    patch_project_urls (some ("urlpatterns = []".data))
      = (true, some ("urlpatterns = [".data ++ insertedRoute ++ "]".data)) ∧
    (patch_project_urls none = (false, none) ∧
      patch_project_urls (some includeMarker) = (true, some includeMarker) ∧
      patch_project_urls (some ("urlpatterns = [".data ++ insertedRoute ++ "]".data))
        = (true, some ("urlpatterns = [".data ++ insertedRoute ++ "]".data))) :=
  ⟨by decide, by decide,
    patch_project_urls_marker_soft_fail includeMarker ("urlpatterns = []".data)
      ("urlpatterns = [".data ++ insertedRoute ++ "]".data) (by decide) (by decide)⟩

/-! ## C1: the pipeline validation gate -/

/-- C1.  Whenever the project target directory or the virtual-environment
target directory exists and is non-empty, the worker fails at the
initial path-validation step — the raised error is the corresponding
validation error — and its event trace is empty: no external command
was invoked and no directory was created. -/
theorem projectWorker_validation_gate (env : WorkerEnv) (d : WorkerData)
    (h : env.projNonempty = true ∨ env.venvNonempty = true) :
    (projectWorker env d).2 = [] ∧
    (projectWorker env d).1 = Except.error
      (if env.projNonempty then PipelineError.projectDirNonEmpty
        else PipelineError.venvDirNonEmpty) := by
  cases hp : env.projNonempty with
  | true => simp [projectWorker, hp]
  | false =>
    rcases h with h | hv
    · rw [hp] at h; cases h
    · simp [projectWorker, hp, hv]

theorem projectWorker_validation_gate_witness :
    ((projectWorker ⟨false, true, true, true, true, true, true, true, true, true⟩
        ⟨true, true⟩).2 = [] ∧
      (projectWorker ⟨false, true, true, true, true, true, true, true, true, true⟩
        ⟨true, true⟩).1 = Except.error
          (if (false : Bool) then PipelineError.projectDirNonEmpty
            else PipelineError.venvDirNonEmpty)) :=
  projectWorker_validation_gate
    ⟨false, true, true, true, true, true, true, true, true, true⟩ ⟨true, true⟩ (Or.inr rfl)

/-! ## Settings-merge lemmas -/

theorem foldl_applyPackage_snd (pkgs : List DjangoPackage) :
    ∀ s : List String × List String,
      (pkgs.foldl applyPackage s).2 = (flatMiddleware pkgs).foldl addMw s.2 := by
  induction pkgs with
  | nil => intro s; simp [flatMiddleware]
  | cons p ps ih =>
    intro s
    rw [List.foldl_cons, ih (applyPackage s p)]
    simp [flatMiddleware, applyPackage, List.foldl_append]

theorem foldl_applyPackage_fst (pkgs : List DjangoPackage) :
    ∀ s : List String × List String,
      (pkgs.foldl applyPackage s).1 = (flatApps pkgs).foldl addApp s.1 := by
  induction pkgs with
  | nil => intro s; simp [flatApps]
  | cons p ps ih =>
    intro s
    rw [List.foldl_cons, ih (applyPackage s p)]
    simp [flatApps, applyPackage, List.foldl_append]

theorem addMw_skip {l : List String} {m : String} (h : m = "" ∨ m ∈ l) : addMw l m = l := by
  unfold addMw
  rcases h with h | h
  · rw [if_neg]; exact fun hc => hc.1 h
  · rw [if_neg]; exact fun hc => hc.2 h

theorem addMw_insert {l : List String} {m : String} (h1 : m ≠ "") (h2 : m ∉ l)
    (hc : containsStr m corsMarker = true) : addMw l m = m :: l := by
  unfold addMw
  rw [if_pos ⟨h1, h2⟩, if_pos hc]

theorem addMw_append {l : List String} {m : String} (h1 : m ≠ "") (h2 : m ∉ l)
    (hc : ¬ containsStr m corsMarker = true) : addMw l m = l ++ [m] := by
  unfold addMw
  rw [if_pos ⟨h1, h2⟩, if_neg hc]

theorem head?_append_some {α : Type} {l : List α} (l' : List α) {a : α}
    (h : l.head? = some a) : (l ++ l').head? = some a := by
  cases l with
  | nil => cases h
  | cons b t => simpa using h

theorem cors_stay (c : String) (S : List String) :
    ∀ L : List String, (∀ m ∈ S, containsStr m corsMarker = true → m = c) → c ∈ L →
      L.head? = some c → (S.foldl addMw L).head? = some c := by
  induction S with
  | nil => intro L _ _ hh; simpa using hh
  | cons m S ih =>
    intro L hall hmem hh
    rw [List.foldl_cons]
    by_cases hcond : m ≠ "" ∧ m ∉ L
    · by_cases hcm : containsStr m corsMarker = true
      · have hmc := hall m (List.mem_cons_self m S) hcm
        rw [hmc] at hcond
        exact absurd hmem hcond.2
      · rw [addMw_append hcond.1 hcond.2 hcm]
        exact ih (L ++ [m]) (fun x hx => hall x (List.mem_cons_of_mem _ hx))
          (List.mem_append_left _ hmem) (head?_append_some [m] hh)
    · rw [addMw_skip (by tauto)]
      exact ih L (fun x hx => hall x (List.mem_cons_of_mem _ hx)) hmem hh

theorem cors_head (c : String) (S : List String) :
    ∀ L : List String, (∀ m ∈ S, containsStr m corsMarker = true → m = c) →
      containsStr c corsMarker = true → c ∉ L → c ∈ S →
      (S.foldl addMw L).head? = some c := by
  induction S with
  | nil => intro L _ _ _ hmem; cases hmem
  | cons m S ih =>
    intro L hall hc hnotL hmem
    rw [List.foldl_cons]
    by_cases hmc : m = c
    · subst hmc
      have hne : m ≠ "" := by
        intro h0
        rw [h0] at hc
        exact absurd hc (by decide)
      rw [addMw_insert hne hnotL hc]
      exact cors_stay m S (m :: L) (fun x hx => hall x (List.mem_cons_of_mem _ hx))
        (List.mem_cons_self m L) rfl
    · have hmemS : c ∈ S := by
        rcases List.mem_cons.mp hmem with h | h
        · exact absurd h.symm hmc
        · exact h
      by_cases hcond : m ≠ "" ∧ m ∉ L
      · by_cases hcm : containsStr m corsMarker = true
        · exact absurd (hall m (List.mem_cons_self m S) hcm) hmc
        · rw [addMw_append hcond.1 hcond.2 hcm]
          refine ih (L ++ [m]) (fun x hx => hall x (List.mem_cons_of_mem _ hx)) hc ?_ hmemS
          intro hcL
          rcases List.mem_append.mp hcL with h | h
          · exact hnotL h
          · exact hmc (List.mem_singleton.mp h).symm
      · rw [addMw_skip (by tauto)]
        exact ih L (fun x hx => hall x (List.mem_cons_of_mem _ hx)) hc hnotL hmemS

/-! ## C2: CORS middleware placement -/

/-- C2 (amended).  Middleware entries containing the CORS marker are
inserted at the front rather than appended: whenever the selected
packages contribute exactly one distinct CORS-marker middleware entry
and that entry is not already present in the parsed middleware list, it
ends up at index 0 of the resulting middleware list, regardless of the
position of its package in the descriptor list and of which other
packages contribute middleware entries. -/
theorem patch_settings_cors_front (apps0 mw0 : List String) (pkgs : List DjangoPackage)
    (flag : Bool) (c : String)
    (hall : ∀ m ∈ flatMiddleware pkgs, containsStr m corsMarker = true → m = c)
    (hc : containsStr c corsMarker = true)
    (hmem : c ∈ flatMiddleware pkgs)
    (h0 : c ∉ mw0) :
    (patch_settings_lists apps0 mw0 pkgs flag).2.head? = some c := by
  have hsnd : (patch_settings_lists apps0 mw0 pkgs flag).2
      = (flatMiddleware pkgs).foldl addMw mw0 := by
    simp [patch_settings_lists, foldl_applyPackage_snd]
  rw [hsnd]
  exact cors_head c (flatMiddleware pkgs) mw0 hall hc h0 hmem

theorem patch_settings_cors_front_witness :
    (patch_settings_lists []
        ["django.middleware.security.SecurityMiddleware"]
        [⟨["x"], ["x.middleware.XMw"], ""⟩,
          ⟨["corsheaders"], ["corsheaders.middleware.CorsMiddleware"], ""⟩]
        true).2.head? = some "corsheaders.middleware.CorsMiddleware" :=
  patch_settings_cors_front [] ["django.middleware.security.SecurityMiddleware"]
    [⟨["x"], ["x.middleware.XMw"], ""⟩,
      ⟨["corsheaders"], ["corsheaders.middleware.CorsMiddleware"], ""⟩]
    true "corsheaders.middleware.CorsMiddleware"
    (by decide) (by decide) (by decide) (by decide)

/-- C2, counterexample to the claim as stated.  Part one: with two
distinct CORS-marker entries contributed by two packages, the first one
ends up at index 1, not 0.  Part two: a CORS-marker entry already
present (not at the front) in the parsed middleware list is deduplicated
and stays where it was, not at index 0. -/
theorem patch_settings_cors_front_cex :
    (containsStr "a.CorsMiddleware" corsMarker = true ∧
      "a.CorsMiddleware" ∈ flatMiddleware
        [⟨[], ["a.CorsMiddleware"], ""⟩, ⟨[], ["b.CorsMiddleware"], ""⟩] ∧
      (patch_settings_lists [] []
          [⟨[], ["a.CorsMiddleware"], ""⟩, ⟨[], ["b.CorsMiddleware"], ""⟩] false).2
        = ["b.CorsMiddleware", "a.CorsMiddleware"]) ∧
    (containsStr "c.CorsMiddleware" corsMarker = true ∧
      "c.CorsMiddleware" ∈ flatMiddleware [⟨[], ["c.CorsMiddleware"], ""⟩] ∧
      (patch_settings_lists [] ["x.mw", "c.CorsMiddleware"]
          [⟨[], ["c.CorsMiddleware"], ""⟩] false).2.head? ≠ some "c.CorsMiddleware") := by
  decide

/-! ## Applications-merge lemmas -/

theorem mem_addApp {l : List String} {x : String} (a : String) (h : x ∈ l) :
    x ∈ addApp l a := by
  unfold addApp
  split
  · exact List.mem_append_left _ h
  · exact h

theorem mem_foldl_addApp (S : List String) :
    ∀ l x, x ∈ l → x ∈ S.foldl addApp l := by
  induction S with
  | nil => intro l x h; simpa using h
  | cons a S ih =>
    intro l x h
    rw [List.foldl_cons]
    exact ih _ x (mem_addApp a h)

theorem self_mem_foldl_addApp (S : List String) :
    ∀ l x, x ∈ S → x ≠ "" → x ∈ S.foldl addApp l := by
  induction S with
  | nil => intro l x h; cases h
  | cons a S ih =>
    intro l x hmem hne
    rw [List.foldl_cons]
    rcases List.mem_cons.mp hmem with h | h
    · subst h
      by_cases hc : x ≠ "" ∧ x ∉ l
      · have ha : addApp l x = l ++ [x] := by unfold addApp; rw [if_pos hc]
        rw [ha]
        exact mem_foldl_addApp S _ x (List.mem_append_right _ (by simp))
      · push_neg at hc
        exact mem_foldl_addApp S _ x (mem_addApp x (hc hne))
    · exact ih _ x h hne

theorem foldl_addApp_id (S : List String) :
    ∀ l, (∀ a ∈ S, a = "" ∨ a ∈ l) → S.foldl addApp l = l := by
  induction S with
  | nil => intro l _; rfl
  | cons a S ih =>
    intro l hall
    rw [List.foldl_cons]
    have ha : addApp l a = l := by
      unfold addApp
      rw [if_neg]
      rcases hall a (List.mem_cons_self a S) with h | h
      · exact fun hc => hc.1 h
      · exact fun hc => hc.2 h
    rw [ha]
    exact ih l (fun x hx => hall x (List.mem_cons_of_mem _ hx))

theorem mem_addMw {l : List String} {x : String} (m : String) (h : x ∈ l) :
    x ∈ addMw l m := by
  unfold addMw
  split
  · split
    · exact List.mem_cons_of_mem _ h
    · exact List.mem_append_left _ h
  · exact h

theorem mem_foldl_addMw (S : List String) :
    ∀ l x, x ∈ l → x ∈ S.foldl addMw l := by
  induction S with
  | nil => intro l x h; simpa using h
  | cons m S ih =>
    intro l x h
    rw [List.foldl_cons]
    exact ih _ x (mem_addMw m h)

theorem self_mem_foldl_addMw (S : List String) :
    ∀ l x, x ∈ S → x ≠ "" → x ∈ S.foldl addMw l := by
  induction S with
  | nil => intro l x h; cases h
  | cons m S ih =>
    intro l x hmem hne
    rw [List.foldl_cons]
    rcases List.mem_cons.mp hmem with h | h
    · subst h
      by_cases hc : x ≠ "" ∧ x ∉ l
      · have ha : x ∈ addMw l x := by
          unfold addMw
          rw [if_pos hc]
          split
          · exact List.mem_cons_self x l
          · exact List.mem_append_right _ (by simp)
        exact mem_foldl_addMw S _ x ha
      · push_neg at hc
        exact mem_foldl_addMw S _ x (mem_addMw x (hc hne))
    · exact ih _ x h hne

theorem foldl_addMw_id (S : List String) :
    ∀ l, (∀ m ∈ S, m = "" ∨ m ∈ l) → S.foldl addMw l = l := by
  induction S with
  | nil => intro l _; rfl
  | cons m S ih =>
    intro l hall
    rw [List.foldl_cons, addMw_skip (hall m (List.mem_cons_self m S))]
    exact ih l (fun x hx => hall x (List.mem_cons_of_mem _ hx))

theorem nodup_addMw {l : List String} (m : String) (h : l.Nodup) : (addMw l m).Nodup := by
  unfold addMw
  split
  case isTrue hc =>
    split
    · exact List.nodup_cons.mpr ⟨hc.2, h⟩
    · rw [List.nodup_append_comm]
      exact List.nodup_cons.mpr ⟨hc.2, h⟩
  case isFalse _ => exact h

theorem nodup_foldl_addMw (S : List String) :
    ∀ l : List String, l.Nodup → (S.foldl addMw l).Nodup := by
  induction S with
  | nil => intro l h; simpa using h
  | cons m S ih =>
    intro l h
    rw [List.foldl_cons]
    exact ih _ (nodup_addMw m h)

/-! ## C3: re-applying the same descriptors -/

/-- C3 (amended).  Re-applying the same package descriptors to an
already-patched settings state duplicates no descriptor-contributed
entry: the middleware list never gains duplicates (it stays duplicate
free when the parsed middleware list was, and the second application
leaves it unchanged), and the second application changes the
installed-applications list only by appending the unconditional
sub-application names (`"core"`, plus `"accounts"` when the custom-user
flag is set) a second time — those unconditional appends are the only
source of duplicates. -/
theorem patch_settings_reapply (apps0 mw0 : List String) (pkgs : List DjangoPackage)
    (flag : Bool) (hmn : mw0.Nodup) :
    (patch_settings_lists apps0 mw0 pkgs flag).2.Nodup ∧
    (patch_settings_lists (patch_settings_lists apps0 mw0 pkgs flag).1
        (patch_settings_lists apps0 mw0 pkgs flag).2 pkgs flag).2
      = (patch_settings_lists apps0 mw0 pkgs flag).2 ∧
    (patch_settings_lists (patch_settings_lists apps0 mw0 pkgs flag).1
        (patch_settings_lists apps0 mw0 pkgs flag).2 pkgs flag).1
      = (patch_settings_lists apps0 mw0 pkgs flag).1 ++ ["core"]
          ++ (if flag then ["accounts"] else []) := by
  have hsnd : ∀ a m : List String,
      (patch_settings_lists a m pkgs flag).2 = (flatMiddleware pkgs).foldl addMw m := by
    intro a m
    simp [patch_settings_lists, foldl_applyPackage_snd]
  have hfst : ∀ a m : List String,
      (patch_settings_lists a m pkgs flag).1
        = (flatApps pkgs).foldl addApp a ++ ["core"]
            ++ (if flag then ["accounts"] else []) := by
    intro a m
    simp [patch_settings_lists, foldl_applyPackage_fst]
  refine ⟨?_, ?_, ?_⟩
  · rw [hsnd]
    exact nodup_foldl_addMw _ mw0 hmn
  · rw [hsnd, hsnd]
    apply foldl_addMw_id
    intro m hm
    by_cases h0 : m = ""
    · exact Or.inl h0
    · exact Or.inr (self_mem_foldl_addMw _ mw0 m hm h0)
  · rw [hfst, hfst]
    have hid : (flatApps pkgs).foldl addApp
        ((flatApps pkgs).foldl addApp apps0 ++ ["core"]
          ++ (if flag then ["accounts"] else []))
        = (flatApps pkgs).foldl addApp apps0 ++ ["core"]
          ++ (if flag then ["accounts"] else []) := by
      apply foldl_addApp_id
      intro a ha
      by_cases h0 : a = ""
      · exact Or.inl h0
      · exact Or.inr (List.mem_append_left _
          (List.mem_append_left _ (self_mem_foldl_addApp _ apps0 a ha h0)))
    rw [hid]

theorem patch_settings_reapply_witness :
    (["django.contrib.admin"] : List String).Nodup ∧
    ((patch_settings_lists ["x"] ["django.contrib.admin"]
        [⟨["pkgApp"], ["pkg.Mw"], ""⟩] true).2.Nodup ∧
      (patch_settings_lists
          (patch_settings_lists ["x"] ["django.contrib.admin"]
            [⟨["pkgApp"], ["pkg.Mw"], ""⟩] true).1
          (patch_settings_lists ["x"] ["django.contrib.admin"]
            [⟨["pkgApp"], ["pkg.Mw"], ""⟩] true).2
          [⟨["pkgApp"], ["pkg.Mw"], ""⟩] true).2
        = (patch_settings_lists ["x"] ["django.contrib.admin"]
            [⟨["pkgApp"], ["pkg.Mw"], ""⟩] true).2 ∧
      (patch_settings_lists
          (patch_settings_lists ["x"] ["django.contrib.admin"]
            [⟨["pkgApp"], ["pkg.Mw"], ""⟩] true).1
          (patch_settings_lists ["x"] ["django.contrib.admin"]
            [⟨["pkgApp"], ["pkg.Mw"], ""⟩] true).2
          [⟨["pkgApp"], ["pkg.Mw"], ""⟩] true).1
        = (patch_settings_lists ["x"] ["django.contrib.admin"]
            [⟨["pkgApp"], ["pkg.Mw"], ""⟩] true).1 ++ ["core"]
            ++ (if (true : Bool) then ["accounts"] else [])) :=
  ⟨by decide,
    patch_settings_reapply ["x"] ["django.contrib.admin"]
      [⟨["pkgApp"], ["pkg.Mw"], ""⟩] true (by decide)⟩

/-- C3, counterexample to the claim as stated: patching a settings state
that was already patched with the same descriptor appends `"core"` a
second time, so the resulting installed-applications list contains a
duplicate entry. -/
theorem patch_settings_reapply_cex :
    (patch_settings_lists
        (patch_settings_lists [] [] [⟨["pkgApp"], [], ""⟩] false).1
        (patch_settings_lists [] [] [⟨["pkgApp"], [], ""⟩] false).2
        [⟨["pkgApp"], [], ""⟩] false).1 = ["pkgApp", "core", "core"] ∧
    ¬ (patch_settings_lists
        (patch_settings_lists [] [] [⟨["pkgApp"], [], ""⟩] false).1
        (patch_settings_lists [] [] [⟨["pkgApp"], [], ""⟩] false).2
        [⟨["pkgApp"], [], ""⟩] false).1.Nodup := by
  decide

/-! ## Probe lemmas -/

theorem winLauncherCheck_false (env : ProbeEnv) (key : List Char)
    (hpy : ∀ out, env.runPyLauncher key = some out → containsList out key = false) :
    winLauncherCheck env key = false := by
  cases hr : env.runPyLauncher key with
  | none => simp [winLauncherCheck, hr]
  | some out => simp [winLauncherCheck, hr, hpy out hr]

theorem probeCandidates_false (env : ProbeEnv) (key : List Char)
    (hprobe : ∀ exe path out, env.which exe = some path →
      env.runVersionProbe path = some out → containsList out key = false) :
    ∀ exes, probeCandidates env key exes = false := by
  intro exes
  induction exes with
  | nil => rfl
  | cons exe rest ih =>
    cases hw : env.which exe with
    | none => simp [probeCandidates, hw, ih]
    | some path =>
      cases hr : env.runVersionProbe path with
      | none => simp [probeCandidates, hw, hr, ih]
      | some out => simp [probeCandidates, hw, hr, hprobe exe path out hw hr, ih]

theorem ipvi_cache_hit (env : ProbeEnv) (cache : List (List Char × Bool))
    (ver k1 k2 : List Char) (b : Bool) (h : majorMinor ver = some (k1, k2))
    (hl : cache.lookup (k1 ++ '.' :: k2) = some b) :
    is_python_version_installed env cache ver = (b, cache) := by
  simp [is_python_version_installed, h, hl]

theorem ipvi_cache_miss (env : ProbeEnv) (cache : List (List Char × Bool))
    (ver k1 k2 : List Char) (h : majorMinor ver = some (k1, k2))
    (hl : cache.lookup (k1 ++ '.' :: k2) = none) :
    is_python_version_installed env cache ver
      = (winLauncherCheck env (k1 ++ '.' :: k2)
          || probeCandidates env (k1 ++ '.' :: k2) (candidateNames k1 k2),
         ((k1 ++ '.' :: k2),
          winLauncherCheck env (k1 ++ '.' :: k2)
            || probeCandidates env (k1 ++ '.' :: k2) (candidateNames k1 k2)) :: cache) := by
  simp [is_python_version_installed, h, hl]

theorem lookup_cons_self (key : List Char) (b : Bool) (cache : List (List Char × Bool)) :
    ((key, b) :: cache).lookup key = some b := by
  simp [List.lookup]

/-! ## C8: the probe is memoized per major.minor key -/

/-- C8.  `is_python_version_installed` is idempotent and memoized per
major.minor key: for any two version strings sharing the same
major.minor groups, a second call (made after a first call, against an
arbitrary, even different, probe environment `env2` — so the answer
cannot come from probing) returns the same result as the first call and
leaves the cache exactly as the first call left it.  Moreover, against
an environment in which no candidate binary resolves-and-matches
(every launcher/probe run either misses the key in its output, raises,
or resolves to nothing), and with the key not cached, the probe
returns `false`. -/
theorem is_python_version_installed_memoized
    (env env2 env3 : ProbeEnv) (cache cache3 : List (List Char × Bool))
    (v1 v2 v3 : List Char) (k k3 : List Char × List Char)
    (h1 : majorMinor v1 = some k) (h2 : majorMinor v2 = some k)
    (h3 : majorMinor v3 = some k3)
    (hc3 : cache3.lookup (k3.1 ++ '.' :: k3.2) = none)
    (hpy : ∀ out, env3.runPyLauncher (k3.1 ++ '.' :: k3.2) = some out →
      containsList out (k3.1 ++ '.' :: k3.2) = false)
    (hprobe : ∀ exe path out, env3.which exe = some path →
      env3.runVersionProbe path = some out →
      containsList out (k3.1 ++ '.' :: k3.2) = false) :
    (is_python_version_installed env2 (is_python_version_installed env cache v1).2 v2).1
        = (is_python_version_installed env cache v1).1 ∧
    (is_python_version_installed env2 (is_python_version_installed env cache v1).2 v2).2
        = (is_python_version_installed env cache v1).2 ∧
    (is_python_version_installed env3 cache3 v3).1 = false := by
  obtain ⟨k1, k2⟩ := k
  obtain ⟨k31, k32⟩ := k3
  have hpart3 : (is_python_version_installed env3 cache3 v3).1 = false := by
    rw [ipvi_cache_miss env3 cache3 v3 k31 k32 h3 hc3]
    rw [winLauncherCheck_false env3 _ hpy, probeCandidates_false env3 _ hprobe]
    rfl
  cases hl : cache.lookup (k1 ++ '.' :: k2) with
  | some b =>
    have e1 := ipvi_cache_hit env cache v1 k1 k2 b h1 hl
    rw [e1]
    have e2 := ipvi_cache_hit env2 cache v2 k1 k2 b h2 hl
    rw [e2]
    exact ⟨rfl, rfl, hpart3⟩
  | none =>
    have e1 := ipvi_cache_miss env cache v1 k1 k2 h1 hl
    rw [e1]
    have e2 := ipvi_cache_hit env2
      (((k1 ++ '.' :: k2),
        winLauncherCheck env (k1 ++ '.' :: k2)
          || probeCandidates env (k1 ++ '.' :: k2) (candidateNames k1 k2)) :: cache)
      v2 k1 k2
      (winLauncherCheck env (k1 ++ '.' :: k2)
        || probeCandidates env (k1 ++ '.' :: k2) (candidateNames k1 k2))
      h2
      (lookup_cons_self (k1 ++ '.' :: k2)
        (winLauncherCheck env (k1 ++ '.' :: k2)
          || probeCandidates env (k1 ++ '.' :: k2) (candidateNames k1 k2)) cache)
    rw [e2]
    exact ⟨rfl, rfl, hpart3⟩

theorem is_python_version_installed_memoized_witness :
    (is_python_version_installed emptyProbeEnv
        (is_python_version_installed emptyProbeEnv [] ("3.11".data)).2 ("3.11.4".data)).1
      = (is_python_version_installed emptyProbeEnv [] ("3.11".data)).1 ∧
    (is_python_version_installed emptyProbeEnv
        (is_python_version_installed emptyProbeEnv [] ("3.11".data)).2 ("3.11.4".data)).2
      = (is_python_version_installed emptyProbeEnv [] ("3.11".data)).2 ∧
    (is_python_version_installed emptyProbeEnv [] ("3.9".data)).1 = false :=
  is_python_version_installed_memoized emptyProbeEnv emptyProbeEnv emptyProbeEnv [] []
    ("3.11".data) ("3.11.4".data) ("3.9".data) ("3".data, "11".data) ("3".data, "9".data)
    (by decide) (by decide) (by decide) rfl
    (fun _ h => Option.noConfusion h)
    (fun _ _ _ hw => Option.noConfusion hw)

/-! ## Version-dedup lemmas -/

theorem filter_swap {α : Type} (p q : α → Bool) (l : List α) :
    (l.filter p).filter q = (l.filter q).filter p := by
  induction l with
  | nil => rfl
  | cons a l ih =>
    by_cases hp : p a <;> by_cases hq : q a <;> simp [hp, hq, ih]

theorem firstSeenDedup_filter (p : List Char → Bool) :
    ∀ X, firstSeenDedup (X.filter p) = (firstSeenDedup X).filter p := by
  intro X
  induction X with
  | nil => rfl
  | cons x X ih =>
    have h3 : firstSeenDedup (x :: X)
        = x :: (firstSeenDedup X).filter (fun w => !decide (w = x)) := rfl
    by_cases hp : p x
    · have h1 : (x :: X).filter p = x :: X.filter p := by simp [hp]
      have h2 : firstSeenDedup (x :: X.filter p)
          = x :: (firstSeenDedup (X.filter p)).filter (fun w => !decide (w = x)) := rfl
      rw [h1, h2, h3, ih]
      have h4 : (x :: (firstSeenDedup X).filter (fun w => !decide (w = x))).filter p
          = x :: ((firstSeenDedup X).filter (fun w => !decide (w = x))).filter p := by
        simp [hp]
      rw [h4, filter_swap]
    · have h1 : (x :: X).filter p = X.filter p := by simp [hp]
      rw [h1, ih, h3]
      have h4 : (x :: (firstSeenDedup X).filter (fun w => !decide (w = x))).filter p
          = ((firstSeenDedup X).filter (fun w => !decide (w = x))).filter p := by
        simp [hp]
      rw [h4, filter_swap]
      symm
      apply List.filter_eq_self.mpr
      intro y hy
      have hpy := (List.mem_filter.mp hy).2
      have hyx : y ≠ x := by
        intro he
        rw [he] at hpy
        exact hp hpy
      simp [hyx]

theorem nodup_firstSeenDedup : ∀ X, (firstSeenDedup X).Nodup := by
  intro X
  induction X with
  | nil => simp [firstSeenDedup]
  | cons v X ih =>
    rw [show firstSeenDedup (v :: X)
      = v :: (firstSeenDedup X).filter (fun w => !decide (w = v)) from rfl]
    refine List.nodup_cons.mpr ⟨?_, ih.filter _⟩
    intro hmem
    have := (List.mem_filter.mp hmem).2
    simp at this

theorem collectVersions_eq (ls : List (List Char)) :
    ∀ acc, collectVersions ls acc
      = acc ++ firstSeenDedup ((lineTokens ls).filter (fun v => !decide (v ∈ acc))) := by
  induction ls with
  | nil => intro acc; simp [collectVersions, lineTokens, firstSeenDedup]
  | cons l ls ih =>
    intro acc
    by_cases h : pyStrip l = []
    · have ht : tokenOfLine l = none := by simp [tokenOfLine, h]
      have hc : collectVersions (l :: ls) acc = collectVersions ls acc := by
        simp [collectVersions, h]
      rw [hc, ih]
      simp [lineTokens, List.filterMap_cons, ht]
    · have ht : tokenOfLine l = some ((firstSemver (pyStrip l)).getD (pyStrip l)) := by
        simp [tokenOfLine, h]
      have htok : lineTokens (l :: ls)
          = (firstSemver (pyStrip l)).getD (pyStrip l) :: lineTokens ls := by
        simp [lineTokens, List.filterMap_cons, ht]
      by_cases hmem : (firstSemver (pyStrip l)).getD (pyStrip l) ∈ acc
      · have hc : collectVersions (l :: ls) acc = collectVersions ls acc := by
          simp [collectVersions, h, hmem]
        rw [hc, ih, htok]
        have hfil : ((firstSemver (pyStrip l)).getD (pyStrip l) :: lineTokens ls).filter
              (fun w => !decide (w ∈ acc))
            = (lineTokens ls).filter (fun w => !decide (w ∈ acc)) := by
          simp [hmem]
        rw [hfil]
      · have hc : collectVersions (l :: ls) acc
            = collectVersions ls (acc ++ [(firstSemver (pyStrip l)).getD (pyStrip l)]) := by
          simp [collectVersions, h, hmem]
        rw [hc, ih (acc ++ [(firstSemver (pyStrip l)).getD (pyStrip l)]), htok]
        have hfil : ((firstSemver (pyStrip l)).getD (pyStrip l) :: lineTokens ls).filter
              (fun w => !decide (w ∈ acc))
            = (firstSemver (pyStrip l)).getD (pyStrip l)
                :: (lineTokens ls).filter (fun w => !decide (w ∈ acc)) := by
          simp [hmem]
        rw [hfil]
        have hfsd : firstSeenDedup ((firstSemver (pyStrip l)).getD (pyStrip l)
              :: (lineTokens ls).filter (fun w => !decide (w ∈ acc)))
            = (firstSemver (pyStrip l)).getD (pyStrip l)
                :: (firstSeenDedup ((lineTokens ls).filter (fun w => !decide (w ∈ acc)))).filter
                    (fun w => !decide (w = (firstSemver (pyStrip l)).getD (pyStrip l))) := rfl
        rw [hfsd]
        have hsplit : (lineTokens ls).filter (fun w =>
              !decide (w ∈ acc ++ [(firstSemver (pyStrip l)).getD (pyStrip l)]))
            = ((lineTokens ls).filter (fun w => !decide (w ∈ acc))).filter
                (fun w => !decide (w = (firstSemver (pyStrip l)).getD (pyStrip l))) := by
          rw [List.filter_filter]
          apply List.filter_congr
          intro w _
          by_cases h1 : w ∈ acc <;> by_cases h2 : w = (firstSemver (pyStrip l)).getD (pyStrip l)
            <;> simp [h1, h2]
        rw [hsplit, firstSeenDedup_filter]
        simp [List.append_assoc]

/-! ## C6: the version list parses and deduplicates per line -/

/-- C6.  For every stdout of the version-listing subcommand, the parser
returns exactly the first-seen-order deduplication of the per-line
tokens, where the token of a non-empty (after stripping) line is the
first match of the semantic-version pattern, else the stripped line —
and that result contains no duplicate, so every version appears exactly
once even when it occurs on several lines. -/
theorem get_python_versions_firstSeenDedup (out : List Char) :
    get_python_versions_via_uv_blocking (UvListOutcome.ran out)
      = Except.ok (firstSeenDedup (lineTokens (splitLines (pyStrip out)))) ∧
    (firstSeenDedup (lineTokens (splitLines (pyStrip out)))).Nodup := by
  refine ⟨?_, nodup_firstSeenDedup _⟩
  by_cases h : pyStrip out = []
  · simp [get_python_versions_via_uv_blocking, h, splitLines, splitLinesGo,
      lineTokens, firstSeenDedup]
  · simp only [get_python_versions_via_uv_blocking, h, if_neg]
    rw [collectVersions_eq]
    simp

/-! ## Replacement lemmas -/

theorem replaceFuel_no_occ (pat rep : List Char) :
    ∀ (n : Nat) (s : List Char), countOcc pat s = 0 → replaceFuel pat rep n s = s := by
  intro n
  induction n with
  | zero => intro s _; cases s <;> rfl
  | succ n ih =>
    intro s h
    cases s with
    | nil => rfl
    | cons c t =>
      rw [show countOcc pat (c :: t)
        = (if pat.isPrefixOf (c :: t) then 1 else 0) + countOcc pat t from rfl] at h
      have h1 : pat.isPrefixOf (c :: t) = false := by
        by_contra hc
        rw [Bool.not_eq_false] at hc
        rw [hc] at h
        simp at h
      have h2 : countOcc pat t = 0 := by
        rw [h1] at h
        simpa using h
      simp [replaceFuel, h1, ih t h2]

theorem countOcc_cons_le (pat : List Char) (c : Char) (s : List Char) :
    countOcc pat s ≤ countOcc pat (c :: s) := by
  rw [show countOcc pat (c :: s)
    = (if pat.isPrefixOf (c :: s) then 1 else 0) + countOcc pat s from rfl]
  split <;> omega

theorem countOcc_append_le (pat x s : List Char) : countOcc pat s ≤ countOcc pat (x ++ s) := by
  induction x with
  | nil => simp
  | cons c t ih =>
    rw [List.cons_append]
    exact le_trans ih (countOcc_cons_le pat c (t ++ s))

theorem countOcc_self_pos (p b : List Char) (hp : p ≠ []) : 1 ≤ countOcc p (p ++ b) := by
  cases p with
  | nil => exact absurd rfl hp
  | cons a t =>
    rw [List.cons_append]
    rw [show countOcc (a :: t) (a :: (t ++ b))
      = (if (a :: t).isPrefixOf (a :: (t ++ b)) then 1 else 0) + countOcc (a :: t) (t ++ b)
      from rfl]
    have hpre := isPrefixOf_append_self (a :: t) b
    rw [List.cons_append] at hpre
    rw [hpre]
    simp

theorem countOcc_middle_pos (p a b : List Char) (hp : p ≠ []) :
    1 ≤ countOcc p (a ++ (p ++ b)) :=
  le_trans (countOcc_self_pos p b hp) (countOcc_append_le p a (p ++ b))

theorem countOcc_one_parts (p : List Char) (hp : p ≠ []) :
    ∀ a b : List Char, countOcc p (a ++ (p ++ b)) = 1 →
      (∀ i, i < a.length → p.isPrefixOf ((a ++ (p ++ b)).drop i) = false) ∧
      countOcc p b = 0 := by
  intro a
  induction a with
  | nil =>
    intro b h
    refine ⟨fun i hi => absurd hi (by simp), ?_⟩
    cases p with
    | nil => exact absurd rfl hp
    | cons q qt =>
      rw [List.nil_append, List.cons_append] at h
      rw [show countOcc (q :: qt) (q :: (qt ++ b))
        = (if (q :: qt).isPrefixOf (q :: (qt ++ b)) then 1 else 0) + countOcc (q :: qt) (qt ++ b)
        from rfl] at h
      have hpre := isPrefixOf_append_self (q :: qt) b
      rw [List.cons_append] at hpre
      rw [hpre] at h
      simp at h
      have hle := countOcc_append_le (q :: qt) qt b
      omega
  | cons c a' ih =>
    intro b h
    rw [List.cons_append] at h
    rw [show countOcc p (c :: (a' ++ (p ++ b)))
      = (if p.isPrefixOf (c :: (a' ++ (p ++ b))) then 1 else 0) + countOcc p (a' ++ (p ++ b))
      from rfl] at h
    have hpos := countOcc_middle_pos p a' b hp
    have h0 : p.isPrefixOf (c :: (a' ++ (p ++ b))) = false := by
      by_contra hc
      rw [Bool.not_eq_false] at hc
      rw [hc] at h
      simp at h
      omega
    rw [h0] at h
    simp at h
    obtain ⟨hpos', hb⟩ := ih b h
    refine ⟨?_, hb⟩
    intro i hi
    cases i with
    | zero =>
      rw [List.cons_append]
      simpa using h0
    | succ j =>
      have hj : j < a'.length := by
        simpa using Nat.lt_of_succ_lt_succ hi
      rw [List.cons_append, List.drop_succ_cons]
      exact hpos' j hj

theorem replaceFuel_exact (p r : List Char) (hp : p ≠ []) :
    ∀ (a b : List Char) (n : Nat),
      (∀ i, i < a.length → p.isPrefixOf ((a ++ (p ++ b)).drop i) = false) →
      a.length + 1 ≤ n →
      replaceFuel p r n (a ++ (p ++ b))
        = a ++ r ++ replaceFuel p r (n - (a.length + 1)) b := by
  intro a
  induction a with
  | nil =>
    intro b n _ hn
    cases n with
    | zero => omega
    | succ m =>
      cases p with
      | nil => exact absurd rfl hp
      | cons q qt =>
        rw [List.nil_append, List.cons_append]
        have hpre := isPrefixOf_append_self (q :: qt) b
        rw [List.cons_append] at hpre
        have hdrop : (q :: (qt ++ b)).drop (q :: qt).length = b := by
          rw [← List.cons_append]
          exact List.drop_left (q :: qt) b
        simp [replaceFuel, hpre, hdrop]
  | cons c a' ih =>
    intro b n hpos hn
    cases n with
    | zero =>
      rw [List.length_cons] at hn
      omega
    | succ m =>
      rw [List.cons_append]
      have h0 : p.isPrefixOf (c :: (a' ++ (p ++ b))) = false := by
        have := hpos 0 (by simp)
        simpa [List.cons_append] using this
      have hpos' : ∀ i, i < a'.length → p.isPrefixOf ((a' ++ (p ++ b)).drop i) = false := by
        intro i hi
        have := hpos (i + 1) (by simp [Nat.succ_lt_succ hi])
        rw [List.cons_append, List.drop_succ_cons] at this
        exact this
      have hn' : a'.length + 1 ≤ m := by
        rw [List.length_cons] at hn
        omega
      have hfuel : m - (a'.length + 1) = m + 1 - ((c :: a').length + 1) := by
        rw [List.length_cons]
        omega
      simp only [replaceFuel, h0, Bool.false_eq_true, if_false]
      rw [ih b m hpos' hn', ← hfuel]
      simp [List.cons_append]

theorem pyReplace_single (p r a b : List Char) (hp : p ≠ [])
    (h : countOcc p (a ++ (p ++ b)) = 1) :
    pyReplace (a ++ (p ++ b)) p r = a ++ r ++ b := by
  obtain ⟨hpos, hb⟩ := countOcc_one_parts p hp a b h
  have hn : a.length + 1 ≤ (a ++ (p ++ b)).length := by
    cases p with
    | nil => exact absurd rfl hp
    | cons q qt =>
      simp only [List.length_append, List.length_cons]
      omega
  rw [pyReplace, replaceFuel_exact p r hp a b _ hpos hn,
    replaceFuel_no_occ p r _ b hb]

/-! ## C4: asset injection as placeholder substitution -/

/-- C4 (amended).  For every base template of the shape
`a ++ headMarker ++ b ++ bodyMarker ++ c` (the head-links marker before
the body-scripts marker, as in the generated base template) in which
the head marker occurs exactly once, and every list of selected asset
descriptors such that after substituting the head block the body marker
still occurs exactly once (in particular no injected head link contains
or recreates the body marker), the output replaces each marker exactly
once by the newline-joined block of the corresponding links/scripts
across all selected assets and leaves all other content byte-identical;
and when the base template file is missing the operation is a silent
no-op. -/
theorem inject_external_libraries_subst (a b c : List Char) (libs : List ExternalLibrary)
    (h1 : countOcc headMarker (a ++ (headMarker ++ (b ++ (bodyMarker ++ c)))) = 1)
    (h2 : countOcc bodyMarker ((a ++ (headBlock libs ++ b)) ++ (bodyMarker ++ c)) = 1) :
    inject_external_libraries (a ++ (headMarker ++ (b ++ (bodyMarker ++ c)))) libs
      = (a ++ (headBlock libs ++ b)) ++ (bodyBlock libs ++ c) ∧
    inject_external_libraries_file none libs = none := by
  refine ⟨?_, rfl⟩
  unfold inject_external_libraries
  rw [pyReplace_single headMarker (headBlock libs) a (b ++ (bodyMarker ++ c)) (by decide) h1]
  have hshape : a ++ headBlock libs ++ (b ++ (bodyMarker ++ c))
      = (a ++ (headBlock libs ++ b)) ++ (bodyMarker ++ c) := by
    simp [List.append_assoc]
  rw [hshape,
    pyReplace_single bodyMarker (bodyBlock libs) (a ++ (headBlock libs ++ b)) c (by decide) h2]
  simp [List.append_assoc]

theorem inject_external_libraries_subst_witness :
    countOcc headMarker
        ("<html>".data ++ (headMarker ++ ("<body>".data ++ (bodyMarker ++ "</html>".data)))) = 1 ∧
    countOcc bodyMarker
        (("<html>".data ++ (headBlock [⟨["u.css".data], ["v.js".data]⟩] ++ "<body>".data))
          ++ (bodyMarker ++ "</html>".data)) = 1 ∧
    (inject_external_libraries
        ("<html>".data ++ (headMarker ++ ("<body>".data ++ (bodyMarker ++ "</html>".data))))
        [⟨["u.css".data], ["v.js".data]⟩]
      = ("<html>".data ++ (headBlock [⟨["u.css".data], ["v.js".data]⟩] ++ "<body>".data))
          ++ (bodyBlock [⟨["u.css".data], ["v.js".data]⟩] ++ "</html>".data) ∧
    inject_external_libraries_file none [⟨["u.css".data], ["v.js".data]⟩] = none) :=
  ⟨by decide, by decide,
    inject_external_libraries_subst "<html>".data "<body>".data "</html>".data
      [⟨["u.css".data], ["v.js".data]⟩] (by decide) (by decide)⟩

/-- C4, counterexample to the claim as stated: a base template holding
each marker exactly once, and one selected asset whose head link is the
body-scripts marker itself.  The head substitution plants a second body
marker, the body substitution then rewrites both, so the output is not
the template with each marker replaced once by its block (the claimed
output keeps the marker text inside the injected link; the code removes
it). -/
theorem inject_external_libraries_subst_cex :
    countOcc headMarker (headMarker ++ bodyMarker) = 1 ∧
    countOcc bodyMarker (headMarker ++ bodyMarker) = 1 ∧
    inject_external_libraries (headMarker ++ bodyMarker) [⟨[bodyMarker], []⟩]
      ≠ headBlock [⟨[bodyMarker], []⟩] ++ bodyBlock [⟨[bodyMarker], []⟩] := by
  decide
